import Mathlib

/-!
# Verification of the sqlx-cli migration state machine

Shallow embedding of `src/sqlx-cli/src/migrate.rs` (the `run`, `revert`,
`info` commands, `validate_applied_migrations`, `short_checksum` and
`MigrationOrdering::infer`) against the external-store contract of
`src/sqlx-core/src/migrate/migrate.rs` (the `Migrate` trait).

The external store (a database connection implementing `Migrate`) is
modelled by `Env`: the dirty version and applied rows it reports, and the
outcome of its `apply`/`revert` primitives.  Every call the commands make
into the store is recorded as an `Event`, so temporal claims ("lock is
acquired before the first apply", "nothing happens after the dirty error")
become statements about the produced event trace.  Console output of the
per-migration status lines is recorded as `Event.report`; `info`'s lines
are returned as `InfoLine` values.  Durations are nanosecond counts
(`Nat`); versions are mathematical integers standing for `i64` (the values
involved are nowhere near the 64-bit range, so wrap-around is immaterial).
-/

namespace Sqlx

/-- Migration kind, from `MigrationType` (`Simple`, `ReversibleUp`,
`ReversibleDown`). -/
inductive MigrationType
  | Simple
  | ReversibleUp
  | ReversibleDown
deriving DecidableEq, Repr

/-- Modelled from the spec: `MigrationType::is_down_migration` is not under
`src/`; the spec's data model says only `ReversibleDown` is a down-kind
record. -/
def MigrationType.is_down_migration : MigrationType → Bool
  | .ReversibleDown => true
  | _ => false

/-- Modelled from the spec: `MigrationType::is_up_migration` is not under
`src/`; per the spec, `Simple` and `ReversibleUp` are the up-kind records. -/
def MigrationType.is_up_migration (t : MigrationType) : Bool :=
  !t.is_down_migration

/-- A catalog record, from `sqlx::migrate::Migration` as used by the CLI:
version, description, kind and checksum (the SQL body plays no role in the
claims). Checksums are byte sequences, kept as `List Nat`. -/
structure Migration where
  version : Int
  description : String
  migration_type : MigrationType
  checksum : List Nat
deriving DecidableEq, Repr

/-- A row of the bookkeeping table, from `sqlx::migrate::AppliedMigration`. -/
structure AppliedMigration where
  version : Int
  checksum : List Nat
deriving DecidableEq, Repr

/-- The error taxonomy of `MigrateError`, restricted to the variants the
embedded commands produce. -/
inductive MigrateError
  | VersionNotPresent (v : Int)
  | VersionTooOld (target latest : Int)
  | VersionTooNew (target latest : Int)
  | VersionMissing (v : Int)
  | VersionMismatch (v : Int)
  | Dirty (v : Int)
deriving DecidableEq, Repr

/-- One observable interaction of a command: calls into the external store
(`ensure_migrations_table`, `dirty_version`, `list_applied_migrations`,
`lock`, `unlock`, `apply`, `revert`, `close`) and the per-migration status
line printed to the console (`report text version elapsed`). -/
inductive Event
  | ensureTable
  | readDirty
  | listApplied
  | lock
  | unlock
  | apply (version : Int)
  | revert (version : Int)
  | report (text : String) (version : Int) (elapsed : Nat)
  | close
deriving DecidableEq, Repr

/-- Behaviour of the external store for one command invocation: the dirty
version and applied rows it reports, and the result of its transactional
`apply`/`revert` primitives (keyed by migration version). -/
structure Env where
  dirty : Option Int
  applied : List AppliedMigration
  applyResult : Int → Except MigrateError Nat
  revertResult : Int → Except MigrateError Nat

/-- Modelled from the spec: `Migrator::version_exists` is not under `src/`;
per the spec it is true exactly when an up-kind record with that version
exists. -/
def version_exists (catalog : List Migration) (v : Int) : Bool :=
  catalog.any (fun m => m.migration_type.is_up_migration && m.version == v)

/-- Lookup of an applied row by version; embeds the `HashMap` the CLI
builds with `applied_migrations.get(&version)`. -/
def lookupApplied (applied : List AppliedMigration) (v : Int) : Option AppliedMigration :=
  applied.find? (fun a => a.version == v)

/-- `applied_migrations.iter().max_by(version).map(version).unwrap_or(0)`. -/
def latestVersion (applied : List AppliedMigration) : Int :=
  match applied with
  | [] => 0
  | a :: rest => rest.foldl (fun acc x => max acc x.version) a.version

/-- `validate_applied_migrations`: with `ignore_missing` everything passes;
otherwise the first applied row whose version has no catalog record (of any
kind) yields `VersionMissing`. -/
def validate_applied_migrations (applied : List AppliedMigration)
    (catalog : List Migration) (ignore_missing : Bool) : Except MigrateError Unit :=
  if ignore_missing then .ok ()
  else
    match applied.find? (fun a => !(catalog.any (fun m => m.version == a.version))) with
    | some a => .error (.VersionMissing a.version)
    | none => .ok ()

/-- The skip decision of the `run` loop: a target is given and this
version exceeds it. -/
def runSkip (target_version : Option Int) (v : Int) : Bool :=
  match target_version with
  | some t => decide (t < v)
  | none => false

/-- The status text of a per-migration report line, shared verbatim by the
`run` and `revert` loops. -/
def statusText (skip dry_run : Bool) : String :=
  if skip then "Skipped" else if dry_run then "Can apply" else "Applied"

/-- The per-migration loop of `run` (`for migration in migrator.iter()`):
down-kind records are skipped; an applied record with a differing checksum
aborts with `VersionMismatch`; an unapplied record is skipped (above the
target), simulated (dry run) or applied through the store primitive, and a
status line is reported. -/
def runLoop (env : Env) (dry_run : Bool) (target_version : Option Int) :
    List Migration → List Event × Except MigrateError Unit
  | [] => ([], .ok ())
  | m :: rest =>
    if m.migration_type.is_down_migration then
      runLoop env dry_run target_version rest
    else
      match lookupApplied env.applied m.version with
      | some a =>
        if m.checksum == a.checksum then
          runLoop env dry_run target_version rest
        else
          ([], .error (.VersionMismatch m.version))
      | none =>
        if dry_run || runSkip target_version m.version then
          let res := runLoop env dry_run target_version rest
          (.report (statusText (runSkip target_version m.version) dry_run) m.version 0 :: res.1,
            res.2)
        else
          match env.applyResult m.version with
          | .error e => ([.apply m.version], .error e)
          | .ok d =>
            let res := runLoop env dry_run target_version rest
            (.apply m.version ::
                .report (statusText (runSkip target_version m.version) dry_run) m.version d ::
                res.1,
              res.2)

/-- `run` after the target-existence check: ensure table, dirty check,
applied listing, validation, target-too-old check, migration loop, and the
final best-effort close (skipped on every `bail!` path, as in the source). -/
def runConn (catalog : List Migration) (env : Env) (dry_run ignore_missing : Bool)
    (target_version : Option Int) : List Event × Except MigrateError Unit :=
  match env.dirty with
  | some v => ([.ensureTable, .readDirty], .error (.Dirty v))
  | none =>
    match validate_applied_migrations env.applied catalog ignore_missing with
    | .error e => ([.ensureTable, .readDirty, .listApplied], .error e)
    | .ok _ =>
      let tooOld : Bool := match target_version with
        | some t => decide (t < latestVersion env.applied)
        | none => false
      if tooOld then
        ([.ensureTable, .readDirty, .listApplied],
          .error (.VersionTooOld (target_version.getD 0) (latestVersion env.applied)))
      else
        let res := runLoop env dry_run target_version catalog
        ([.ensureTable, .readDirty, .listApplied] ++ res.1 ++
            (match res.2 with | .ok _ => [Event.close] | .error _ => []),
          res.2)

/-- The `run` command of `src/sqlx-cli/src/migrate.rs`. -/
def run (catalog : List Migration) (env : Env) (dry_run ignore_missing : Bool)
    (target_version : Option Int) : List Event × Except MigrateError Unit :=
  match target_version with
  | some t =>
    if version_exists catalog t then
      runConn catalog env dry_run ignore_missing (some t)
    else
      ([], .error (.VersionNotPresent t))
  | none => runConn catalog env dry_run ignore_missing none

/-- The skip decision of the `revert` loop: a target is given and this
version is at or below it. -/
def revertSkip (target_version : Option Int) (v : Int) : Bool :=
  match target_version with
  | some t => decide (v ≤ t)
  | none => false

/-- The per-migration loop of `revert` (`for migration in
migrator.iter().rev()`), taking the already-reversed catalog: only
down-kind records whose version is applied are considered; with no target
version the loop breaks after the first one processed. -/
def revertLoop (env : Env) (dry_run : Bool) (target_version : Option Int) :
    List Migration → List Event × Except MigrateError Unit
  | [] => ([], .ok ())
  | m :: rest =>
    if !m.migration_type.is_down_migration then
      revertLoop env dry_run target_version rest
    else if (lookupApplied env.applied m.version).isSome then
      if dry_run || revertSkip target_version m.version then
        match target_version with
        | none => ([.report (statusText (revertSkip none m.version) dry_run) m.version 0], .ok ())
        | some t =>
          let res := revertLoop env dry_run (some t) rest
          (.report (statusText (revertSkip (some t) m.version) dry_run) m.version 0 :: res.1,
            res.2)
      else
        match env.revertResult m.version with
        | .error e => ([.revert m.version], .error e)
        | .ok d =>
          match target_version with
          | none => ([.revert m.version, .report (statusText (revertSkip none m.version) dry_run) m.version d], .ok ())
          | some t =>
            let res := revertLoop env dry_run (some t) rest
            (.revert m.version ::
                .report (statusText (revertSkip (some t) m.version) dry_run) m.version d ::
                res.1,
              res.2)
    else revertLoop env dry_run target_version rest

/-- `revert` after the target-existence check: mirrors `runConn` with the
inverted `VersionTooNew` comparison and the descending loop. -/
def revertConn (catalog : List Migration) (env : Env) (dry_run ignore_missing : Bool)
    (target_version : Option Int) : List Event × Except MigrateError Unit :=
  match env.dirty with
  | some v => ([.ensureTable, .readDirty], .error (.Dirty v))
  | none =>
    match validate_applied_migrations env.applied catalog ignore_missing with
    | .error e => ([.ensureTable, .readDirty, .listApplied], .error e)
    | .ok _ =>
      let tooNew : Bool := match target_version with
        | some t => decide (latestVersion env.applied < t)
        | none => false
      if tooNew then
        ([.ensureTable, .readDirty, .listApplied],
          .error (.VersionTooNew (target_version.getD 0) (latestVersion env.applied)))
      else
        let res := revertLoop env dry_run target_version catalog.reverse
        ([.ensureTable, .readDirty, .listApplied] ++ res.1 ++
            (match res.2 with | .ok _ => [Event.close] | .error _ => []),
          res.2)

/-- The `revert` command of `src/sqlx-cli/src/migrate.rs`.  A target of `0`
bypasses the catalog-existence check ("revert everything"). -/
def revert (catalog : List Migration) (env : Env) (dry_run ignore_missing : Bool)
    (target_version : Option Int) : List Event × Except MigrateError Unit :=
  match target_version with
  | some t =>
    if t != 0 && !version_exists catalog t then
      ([], .error (.VersionNotPresent t))
    else
      revertConn catalog env dry_run ignore_missing (some t)
  | none => revertConn catalog env dry_run ignore_missing none

/-- Hexadecimal digit character used by `{b:02x?}` (lowercase). -/
def hexChar (n : Nat) : Char :=
  if n < 10 then Char.ofNat (48 + n) else Char.ofNat (87 + n)

/-- `short_checksum`: every byte rendered as two lowercase hex characters,
zero-padded (`write!(s, "{b:02x?}")` per byte, in order). -/
def short_checksum (checksum : List Nat) : String :=
  String.mk (checksum.foldr (fun b acc => hexChar (b / 16) :: hexChar (b % 16) :: acc) [])

/-- One status line of `info`: the printed version and status, plus, on a
checksum mismatch, the pair (applied checksum, local checksum) printed in
abbreviated form. -/
structure InfoLine where
  version : Int
  status : String
  checksums : Option (String × String)
deriving DecidableEq, Repr

/-- The per-migration classification of `info`. -/
def infoLine (applied : List AppliedMigration) (m : Migration) : InfoLine :=
  match lookupApplied applied m.version with
  | some a =>
    if a.checksum == m.checksum then
      ⟨m.version, "installed", none⟩
    else
      ⟨m.version, "installed (different checksum)",
        some (short_checksum a.checksum, short_checksum m.checksum)⟩
  | none => ⟨m.version, "pending", none⟩

/-- The `info` command: one line per up-kind catalog record (down-kind
records are skipped), never failing past the store reads. -/
def info (catalog : List Migration) (env : Env) : List InfoLine × Except MigrateError Unit :=
  ((catalog.filter (fun m => !m.migration_type.is_down_migration)).map (infoLine env.applied),
    .ok ())

/-- The ordering token produced for a newly authored migration. -/
inductive MigrationOrdering
  | Timestamp (s : String)
  | Sequential (s : String)
deriving DecidableEq, Repr

/-- Rust's `format!("{version:04}")`: decimal digits, zero-padded after the
sign to a total width of at least 4. -/
def fmt04 (version : Int) : String :=
  let digits := Nat.repr version.natAbs
  let sign := if version < 0 then "-" else ""
  sign ++ String.mk (List.replicate (4 - (sign.length + digits.length)) '0') ++ digits

/-- `MigrationOrdering::sequential`. -/
def MigrationOrdering.sequential (version : Int) : MigrationOrdering :=
  .Sequential (fmt04 version)

/-- `MigrationOrdering::timestamp`, with the wall-clock string supplied as a
parameter. -/
def MigrationOrdering.timestamp (now : String) : MigrationOrdering :=
  .Timestamp now

/-- `MigrationOrdering::infer`.  The source panics when both flags are set;
that branch is modelled as `none`. -/
def MigrationOrdering.infer (sequential timestamp : Bool) (now : String)
    (catalog : List Migration) : Option MigrationOrdering :=
  match timestamp, sequential with
  | true, true => none
  | true, false => some (.timestamp now)
  | false, true =>
    some (.sequential (match catalog.getLast? with
      | some m => m.version + 1
      | none => 1))
  | false, false =>
    match (catalog.filter (fun m => m.migration_type.is_up_migration)).reverse.take 2 with
    | [lst, pre_lst] =>
      some (if lst.version - pre_lst.version = 1 then
        .sequential (lst.version + 1)
      else
        .timestamp now)
    | [lst] =>
      some (if lst.version = 0 ∨ lst.version = 1 then
        .sequential (lst.version + 1)
      else
        .timestamp now)
    | _ => some (.timestamp now)

/-! ## Claim-side predicates and concrete inputs -/

/-- The target-existence precondition of `run`: reaching the connection
stage requires the target version, when given, to exist in the catalog. -/
def targetOkRun (catalog : List Migration) : Option Int → Bool
  | none => true
  | some t => version_exists catalog t

/-- The target-existence precondition of `revert`: a target of `0` is
always allowed, any other target must exist in the catalog. -/
def targetOkRevert (catalog : List Migration) : Option Int → Bool
  | none => true
  | some t => t == 0 || version_exists catalog t

/-- An up-kind catalog record whose version is applied with a checksum
differing from the catalog checksum. -/
def isMismatched (applied : List AppliedMigration) (m : Migration) : Bool :=
  m.migration_type.is_up_migration &&
    (match lookupApplied applied m.version with
      | some a => !(m.checksum == a.checksum)
      | none => false)

/-- Leading-zero padding of a digit string to at least four characters, the
claim's reading of "zero-padded 4-digit integer string". -/
def padTo4 (s : String) : String :=
  String.mk (List.replicate (4 - s.length) '0') ++ s

/-- A lowercase hexadecimal digit character. -/
def isLowerHexDigit (c : Char) : Bool :=
  (('0' ≤ c) && (c ≤ '9')) || (('a' ≤ c) && (c ≤ 'f'))

/-- Recognizer for per-migration report lines in a trace. -/
def isReportEvent : Event → Bool
  | .report _ _ _ => true
  | _ => false

/-- Recognizer for calls to the external revert primitive in a trace. -/
def isRevertEvent : Event → Bool
  | .revert _ => true
  | _ => false

/-- Concrete catalog record: one simple migration, version 1. -/
def mig1 : Migration := ⟨1, "first", .Simple, [1]⟩

/-- Concrete store: clean, nothing applied, primitives succeed in 7ns. -/
def env1 : Env := ⟨none, [], fun _ => .ok 7, fun _ => .ok 7⟩

/-- Concrete catalog: a reversible pair at version 1. -/
def cat1d : List Migration :=
  [⟨1, "first", .ReversibleUp, [1]⟩, ⟨1, "first", .ReversibleDown, [1]⟩]

/-- Concrete store: clean, version 1 applied with matching checksum. -/
def env1r : Env := ⟨none, [⟨1, [1]⟩], fun _ => .ok 7, fun _ => .ok 7⟩

/-- Concrete store: dirty at version 9. -/
def env2 : Env := ⟨some 9, [], fun _ => .ok 7, fun _ => .ok 7⟩

/-! ## Trace-shape lemmas -/

/-- Every event the `run` loop emits is an `apply` of an unapplied version
(only outside dry runs) or a report line for an unapplied version. -/
theorem runLoop_mem_shape (env : Env) (dry_run : Bool) (target_version : Option Int)
    (l : List Migration) (ev : Event)
    (h : ev ∈ (runLoop env dry_run target_version l).1) :
    (∃ v, ev = .apply v ∧ lookupApplied env.applied v = none ∧ dry_run = false) ∨
    (∃ text v e, ev = .report text v e ∧ lookupApplied env.applied v = none) := by
  induction l with
  | nil => simp [runLoop] at h
  | cons m rest ih =>
    rw [runLoop] at h
    by_cases hdown : m.migration_type.is_down_migration = true
    · rw [if_pos hdown] at h
      exact ih h
    · rw [if_neg hdown] at h
      cases hl : lookupApplied env.applied m.version with
      | some a =>
        simp only [hl] at h
        by_cases hc : (m.checksum == a.checksum) = true
        · rw [if_pos hc] at h
          exact ih h
        · rw [if_neg hc] at h
          simp at h
      | none =>
        simp only [hl] at h
        by_cases hds : (dry_run || runSkip target_version m.version) = true
        · rw [if_pos hds] at h
          rcases List.mem_cons.mp h with hh | hh
          · exact Or.inr ⟨_, m.version, 0, hh, hl⟩
          · exact ih hh
        · rw [if_neg hds] at h
          have hdry : dry_run = false := by
            cases dry_run
            · rfl
            · simp at hds
          cases happ : env.applyResult m.version with
          | error e =>
            simp only [happ] at h
            simp at h
            exact Or.inl ⟨m.version, by simp [h], hl, hdry⟩
          | ok d =>
            simp only [happ] at h
            rcases List.mem_cons.mp h with hh | hh
            · exact Or.inl ⟨m.version, hh, hl, hdry⟩
            · rcases List.mem_cons.mp hh with hh2 | hh2
              · exact Or.inr ⟨_, m.version, d, hh2, hl⟩
              · exact ih hh2

/-- Every event the `revert` loop emits is a `revert` of an applied version
(only outside dry runs) or a report line. -/
theorem revertLoop_mem_shape (env : Env) (dry_run : Bool) (target_version : Option Int)
    (l : List Migration) (ev : Event)
    (h : ev ∈ (revertLoop env dry_run target_version l).1) :
    (∃ v, ev = .revert v ∧ (lookupApplied env.applied v).isSome = true ∧ dry_run = false) ∨
    (∃ text v e, ev = .report text v e) := by
  induction l with
  | nil => simp [revertLoop] at h
  | cons m rest ih =>
    rw [revertLoop.eq_def] at h
    dsimp only [] at h
    by_cases hdown : m.migration_type.is_down_migration = true
    · rw [if_neg (by simp [hdown])] at h
      by_cases ha : (lookupApplied env.applied m.version).isSome = true
      · rw [if_pos ha] at h
        by_cases hds : (dry_run || revertSkip target_version m.version) = true
        · rw [if_pos hds] at h
          cases target_version with
          | none =>
            simp at h
            exact Or.inr ⟨_, _, _, h⟩
          | some t =>
            rcases List.mem_cons.mp h with hh | hh
            · exact Or.inr ⟨_, _, _, hh⟩
            · exact ih hh
        · rw [if_neg hds] at h
          have hdry : dry_run = false := by
            cases dry_run
            · rfl
            · simp at hds
          cases hr : env.revertResult m.version with
          | error e =>
            simp only [hr] at h
            simp at h
            exact Or.inl ⟨m.version, by simp [h], ha, hdry⟩
          | ok d =>
            simp only [hr] at h
            cases target_version with
            | none =>
              rcases List.mem_cons.mp h with hh | hh
              · exact Or.inl ⟨m.version, hh, ha, hdry⟩
              · simp at hh
                exact Or.inr ⟨_, _, _, hh⟩
            | some t =>
              rcases List.mem_cons.mp h with hh | hh
              · exact Or.inl ⟨m.version, hh, ha, hdry⟩
              · rcases List.mem_cons.mp hh with hh2 | hh2
                · exact Or.inr ⟨_, _, _, hh2⟩
                · exact ih hh2
      · rw [if_neg ha] at h
        exact ih h
    · rw [if_pos (by simp [hdown])] at h
      exact ih h

/-- Every event in a `run` trace is a loop event or one of the four fixed
store interactions. -/
theorem run_mem (catalog : List Migration) (env : Env) (dry_run ignore_missing : Bool)
    (target_version : Option Int) (ev : Event)
    (h : ev ∈ (run catalog env dry_run ignore_missing target_version).1) :
    ev ∈ (runLoop env dry_run target_version catalog).1 ∨
    ev ∈ [Event.ensureTable, Event.readDirty, Event.listApplied, Event.close] := by
  have hbody : ∀ tv : Option Int,
      ev ∈ ([Event.ensureTable, Event.readDirty, Event.listApplied] ++
          (runLoop env dry_run tv catalog).1 ++
          (match (runLoop env dry_run tv catalog).2 with
            | .ok _ => [Event.close] | .error _ => [])) →
      ev ∈ (runLoop env dry_run tv catalog).1 ∨
      ev ∈ [Event.ensureTable, Event.readDirty, Event.listApplied, Event.close] := by
    intro tv hc
    simp only [List.append_assoc, List.mem_append] at hc
    rcases hc with hc | hc | hc
    · simp at hc
      rcases hc with hc | hc | hc <;> simp [hc]
    · exact Or.inl hc
    · cases hres : (runLoop env dry_run tv catalog).2 with
      | ok u2 => simp only [hres] at hc; simp at hc; simp [hc]
      | error e2 => simp only [hres] at hc; simp at hc
  have hconn : ∀ tv : Option Int, ev ∈ (runConn catalog env dry_run ignore_missing tv).1 →
      ev ∈ (runLoop env dry_run tv catalog).1 ∨
      ev ∈ [Event.ensureTable, Event.readDirty, Event.listApplied, Event.close] := by
    intro tv hc
    unfold runConn at hc
    cases hd : env.dirty with
    | some v =>
      simp only [hd] at hc
      simp at hc
      rcases hc with hc | hc <;> simp [hc]
    | none =>
      simp only [hd] at hc
      cases hv : validate_applied_migrations env.applied catalog ignore_missing with
      | error e =>
        simp only [hv] at hc
        simp at hc
        rcases hc with hc | hc | hc <;> simp [hc]
      | ok u =>
        simp only [hv] at hc
        cases tv with
        | none =>
          rw [if_neg (by simp)] at hc
          exact hbody none hc
        | some t =>
          by_cases hto : decide (t < latestVersion env.applied) = true
          · rw [if_pos (by simpa using hto)] at hc
            simp at hc
            rcases hc with hc | hc | hc <;> simp [hc]
          · rw [if_neg (by simpa using hto)] at hc
            exact hbody (some t) hc
  cases target_version with
  | none =>
    unfold run at h
    exact hconn none h
  | some t =>
    unfold run at h
    dsimp only [] at h
    by_cases he : version_exists catalog t = true
    · rw [if_pos he] at h
      exact hconn (some t) h
    · rw [if_neg he] at h
      simp at h

/-- Every event in a `revert` trace is a loop event or one of the four
fixed store interactions. -/
theorem revert_mem (catalog : List Migration) (env : Env) (dry_run ignore_missing : Bool)
    (target_version : Option Int) (ev : Event)
    (h : ev ∈ (revert catalog env dry_run ignore_missing target_version).1) :
    ev ∈ (revertLoop env dry_run target_version catalog.reverse).1 ∨
    ev ∈ [Event.ensureTable, Event.readDirty, Event.listApplied, Event.close] := by
  have hbody : ∀ tv : Option Int,
      ev ∈ ([Event.ensureTable, Event.readDirty, Event.listApplied] ++
          (revertLoop env dry_run tv catalog.reverse).1 ++
          (match (revertLoop env dry_run tv catalog.reverse).2 with
            | .ok _ => [Event.close] | .error _ => [])) →
      ev ∈ (revertLoop env dry_run tv catalog.reverse).1 ∨
      ev ∈ [Event.ensureTable, Event.readDirty, Event.listApplied, Event.close] := by
    intro tv hc
    simp only [List.append_assoc, List.mem_append] at hc
    rcases hc with hc | hc | hc
    · simp at hc
      rcases hc with hc | hc | hc <;> simp [hc]
    · exact Or.inl hc
    · cases hres : (revertLoop env dry_run tv catalog.reverse).2 with
      | ok u2 => simp only [hres] at hc; simp at hc; simp [hc]
      | error e2 => simp only [hres] at hc; simp at hc
  have hconn : ∀ tv : Option Int, ev ∈ (revertConn catalog env dry_run ignore_missing tv).1 →
      ev ∈ (revertLoop env dry_run tv catalog.reverse).1 ∨
      ev ∈ [Event.ensureTable, Event.readDirty, Event.listApplied, Event.close] := by
    intro tv hc
    unfold revertConn at hc
    cases hd : env.dirty with
    | some v =>
      simp only [hd] at hc
      simp at hc
      rcases hc with hc | hc <;> simp [hc]
    | none =>
      simp only [hd] at hc
      cases hv : validate_applied_migrations env.applied catalog ignore_missing with
      | error e =>
        simp only [hv] at hc
        simp at hc
        rcases hc with hc | hc | hc <;> simp [hc]
      | ok u =>
        simp only [hv] at hc
        cases tv with
        | none =>
          rw [if_neg (by simp)] at hc
          exact hbody none hc
        | some t =>
          by_cases hto : decide (latestVersion env.applied < t) = true
          · rw [if_pos (by simpa using hto)] at hc
            simp at hc
            rcases hc with hc | hc | hc <;> simp [hc]
          · rw [if_neg (by simpa using hto)] at hc
            exact hbody (some t) hc
  cases target_version with
  | none =>
    unfold revert at h
    exact hconn none h
  | some t =>
    unfold revert at h
    dsimp only [] at h
    by_cases he : (t != 0 && !version_exists catalog t) = true
    · rw [if_pos he] at h
      simp at h
    · rw [if_neg he] at h
      exact hconn (some t) h

end Sqlx

namespace Sqlx

/-- C1: evaluating the code at a failing input: this `run` invocation
invokes the external apply primitive (and the `revert` invocation the
revert primitive) while no `lock` or `unlock` call occurs anywhere in
either trace — contradicting the claim that the advisory lock is acquired
before the first apply/revert call and released after the loop. -/
theorem run_revert_apply_without_lock :
    (Event.apply 1 ∈ (run [mig1] env1 false false none).1 ∧
      Event.lock ∉ (run [mig1] env1 false false none).1 ∧
      Event.unlock ∉ (run [mig1] env1 false false none).1) ∧
    (Event.revert 1 ∈ (revert cat1d env1r false false none).1 ∧
      Event.lock ∉ (revert cat1d env1r false false none).1 ∧
      Event.unlock ∉ (revert cat1d env1r false false none).1) := by
  decide

/-- C2: with a dirty version `d` reported by the store (and a target that
passes the catalog-existence check), both `run` and `revert` stop right
after the dirty read with the `Dirty d` error: the trace is exactly
ensure-table then dirty-read, so no apply, revert or any later store
interaction happens. -/
theorem dirty_blocks_run_and_revert (catalog : List Migration) (env : Env)
    (dry_run ignore_missing : Bool) (target_version : Option Int) (d : Int)
    (hd : env.dirty = some d)
    (h1 : targetOkRun catalog target_version = true)
    (h2 : targetOkRevert catalog target_version = true) :
    run catalog env dry_run ignore_missing target_version
        = ([.ensureTable, .readDirty], .error (.Dirty d)) ∧
    revert catalog env dry_run ignore_missing target_version
        = ([.ensureTable, .readDirty], .error (.Dirty d)) := by
  have hrc : ∀ tv : Option Int, runConn catalog env dry_run ignore_missing tv
      = ([.ensureTable, .readDirty], .error (.Dirty d)) := by
    intro tv
    unfold runConn
    rw [hd]
  have hvc : ∀ tv : Option Int, revertConn catalog env dry_run ignore_missing tv
      = ([.ensureTable, .readDirty], .error (.Dirty d)) := by
    intro tv
    unfold revertConn
    rw [hd]
  cases target_version with
  | none => exact ⟨hrc none, hvc none⟩
  | some t =>
    constructor
    · unfold run
      dsimp only []
      rw [if_pos (by simpa [targetOkRun] using h1)]
      exact hrc (some t)
    · unfold revert
      dsimp only []
      have hcond : (t != 0 && !version_exists catalog t) = false := by
        simp only [targetOkRevert] at h2
        cases h0 : (t == 0) <;> cases hve : version_exists catalog t <;>
          simp_all
      rw [hcond]
      simp only [Bool.false_eq_true, if_false]
      exact hvc (some t)

/-- C2 witness: a concrete dirty store blocks both commands. -/
theorem dirty_blocks_run_and_revert_witness :
    env2.dirty = some 9 ∧ targetOkRun [] (none : Option Int) = true ∧
    targetOkRevert [] (none : Option Int) = true ∧
    run [] env2 false false none = ([.ensureTable, .readDirty], .error (.Dirty 9)) ∧
    revert [] env2 false false none = ([.ensureTable, .readDirty], .error (.Dirty 9)) :=
  ⟨rfl, rfl, rfl,
    (dirty_blocks_run_and_revert [] env2 false false none 9 rfl rfl rfl).1,
    (dirty_blocks_run_and_revert [] env2 false false none 9 rfl rfl rfl).2⟩

/-- C10: `run` emits a per-migration report line only for versions that are
not in the applied set; an applied migration with a matching checksum
produces no line at all. -/
theorem run_report_only_unapplied (catalog : List Migration) (env : Env)
    (dry_run ignore_missing : Bool) (target_version : Option Int)
    (text : String) (v : Int) (elapsed : Nat)
    (h : Event.report text v elapsed ∈ (run catalog env dry_run ignore_missing target_version).1) :
    lookupApplied env.applied v = none := by
  rcases run_mem catalog env dry_run ignore_missing target_version _ h with hm | hm
  · rcases runLoop_mem_shape env dry_run target_version catalog _ hm with
      ⟨w, hw, -, -⟩ | ⟨t2, v2, e2, hev, hl⟩
    · simp at hw
    · obtain ⟨-, rfl, -⟩ : text = t2 ∧ v = v2 ∧ elapsed = e2 := by simpa using hev
      exact hl
  · simp at hm

/-- C10 witness: the concrete run of `mig1` reports it, and it is indeed
unapplied. -/
theorem run_report_only_unapplied_witness :
    Event.report "Applied" 1 7 ∈ (run [mig1] env1 false false none).1 ∧
    lookupApplied env1.applied 1 = none :=
  ⟨by decide, run_report_only_unapplied [mig1] env1 false false none "Applied" 1 7 (by decide)⟩

theorem hexChar_lower : ∀ n < 16, isLowerHexDigit (hexChar n) = true := by decide

/-- C9: `short_checksum` renders each byte as exactly two lowercase hex
digits: the output has twice as many characters as there are bytes, and
every character is a lowercase hexadecimal digit. -/
theorem short_checksum_two_hex (checksum : List Nat) (hb : ∀ b ∈ checksum, b < 256) :
    (short_checksum checksum).length = 2 * checksum.length ∧
    (∀ c ∈ (short_checksum checksum).data, isLowerHexDigit c = true) := by
  induction checksum with
  | nil => exact ⟨rfl, by intro c hc; simp [short_checksum] at hc⟩
  | cons b rest ih =>
    have hb0 : b < 256 := hb b (by simp)
    have ihh := ih (fun x hx => hb x (by simp [hx]))
    have hdata : (short_checksum (b :: rest)).data
        = hexChar (b / 16) :: hexChar (b % 16) :: (short_checksum rest).data := rfl
    have hlen : (short_checksum (b :: rest)).length
        = (short_checksum rest).length + 2 := by
      show (short_checksum (b :: rest)).data.length = (short_checksum rest).data.length + 2
      rw [hdata]
      simp
    constructor
    · rw [hlen, ihh.1]
      simp
      ring
    · intro c hc
      rw [hdata] at hc
      rcases List.mem_cons.mp hc with rfl | hc2
      · exact hexChar_lower _ (by omega)
      · rcases List.mem_cons.mp hc2 with rfl | hc3
        · exact hexChar_lower _ (by omega)
        · exact ihh.2 c hc3

/-- C9 witness: three concrete bytes produce six lowercase hex characters. -/
theorem short_checksum_two_hex_witness :
    (∀ b ∈ [0, 255, 171], b < 256) ∧
    ((short_checksum [0, 255, 171]).length = 2 * 3 ∧
      (∀ c ∈ (short_checksum [0, 255, 171]).data, isLowerHexDigit c = true)) :=
  ⟨by decide, short_checksum_two_hex [0, 255, 171] (by decide)⟩

end Sqlx

namespace Sqlx

def env6 : Env := ⟨none, [⟨5, [1]⟩], fun _ => .ok 7, fun _ => .ok 7⟩

/-- C6: without `ignore_missing`, an applied version absent from the
catalog makes both `run` and `revert` fail with `VersionMissing` right
after listing the applied rows — before any apply/revert primitive is
invoked —, and with `ignore_missing` the validation always succeeds. -/
theorem missing_version_blocks (catalog : List Migration) (env : Env)
    (dry_run : Bool) (target_version : Option Int)
    (hd : env.dirty = none)
    (h1 : targetOkRun catalog target_version = true)
    (h2 : targetOkRevert catalog target_version = true)
    (hmiss : ∃ a ∈ env.applied, ∀ m ∈ catalog, m.version ≠ a.version) :
    (∃ w, (∃ a ∈ env.applied, a.version = w) ∧ (∀ m ∈ catalog, m.version ≠ w) ∧
      run catalog env dry_run false target_version
        = ([.ensureTable, .readDirty, .listApplied], .error (.VersionMissing w)) ∧
      revert catalog env dry_run false target_version
        = ([.ensureTable, .readDirty, .listApplied], .error (.VersionMissing w))) ∧
    (∀ (applied2 : List AppliedMigration) (catalog2 : List Migration),
      validate_applied_migrations applied2 catalog2 true = .ok ()) := by
  constructor
  · have hsome : (env.applied.find?
        (fun a => !(catalog.any (fun m => m.version == a.version)))).isSome = true := by
      rw [List.find?_isSome]
      rcases hmiss with ⟨a, ha, hnone⟩
      refine ⟨a, ha, ?_⟩
      simp only [Bool.not_eq_true', List.any_eq_false]
      intro m hm
      simpa using hnone m hm
    rcases Option.isSome_iff_exists.mp hsome with ⟨a0, hfind⟩
    have ha0mem : a0 ∈ env.applied := List.mem_of_find?_eq_some hfind
    have ha0p := List.find?_some hfind
    have ha0none : ∀ m ∈ catalog, m.version ≠ a0.version := by
      simp only [Bool.not_eq_true', List.any_eq_false] at ha0p
      intro m hm
      simpa using ha0p m hm
    have hval : validate_applied_migrations env.applied catalog false
        = .error (.VersionMissing a0.version) := by
      unfold validate_applied_migrations
      rw [if_neg (by simp)]
      rw [hfind]
    have hrc : ∀ tv : Option Int, runConn catalog env dry_run false tv
        = ([.ensureTable, .readDirty, .listApplied], .error (.VersionMissing a0.version)) := by
      intro tv
      unfold runConn
      rw [hd, hval]
    have hvc : ∀ tv : Option Int, revertConn catalog env dry_run false tv
        = ([.ensureTable, .readDirty, .listApplied], .error (.VersionMissing a0.version)) := by
      intro tv
      unfold revertConn
      rw [hd, hval]
    refine ⟨a0.version, ⟨a0, ha0mem, rfl⟩, ha0none, ?_, ?_⟩
    · cases target_version with
      | none => exact hrc none
      | some t =>
        unfold run
        dsimp only []
        rw [if_pos (by simpa [targetOkRun] using h1)]
        exact hrc (some t)
    · cases target_version with
      | none => exact hvc none
      | some t =>
        unfold revert
        dsimp only []
        have hcond : (t != 0 && !version_exists catalog t) = false := by
          simp only [targetOkRevert] at h2
          cases h0 : (t == 0) <;> cases hve : version_exists catalog t <;> simp_all
        rw [hcond]
        simp only [Bool.false_eq_true, if_false]
        exact hvc (some t)
  · intro applied2 catalog2
    rfl

/-- C6 witness: applied version 5 is missing from the concrete catalog. -/
theorem missing_version_blocks_witness :
    (env6.dirty = none ∧ targetOkRun [mig1] (none : Option Int) = true ∧
      targetOkRevert [mig1] (none : Option Int) = true ∧
      (∃ a ∈ env6.applied, ∀ m ∈ [mig1], m.version ≠ a.version)) ∧
    ((∃ w, (∃ a ∈ env6.applied, a.version = w) ∧ (∀ m ∈ [mig1], m.version ≠ w) ∧
      run [mig1] env6 false false none
        = ([.ensureTable, .readDirty, .listApplied], .error (.VersionMissing w)) ∧
      revert [mig1] env6 false false none
        = ([.ensureTable, .readDirty, .listApplied], .error (.VersionMissing w))) ∧
    (∀ (applied2 : List AppliedMigration) (catalog2 : List Migration),
      validate_applied_migrations applied2 catalog2 true = .ok ())) :=
  ⟨⟨rfl, rfl, rfl, by decide⟩,
    missing_version_blocks [mig1] env6 false none rfl rfl rfl (by decide)⟩

end Sqlx

namespace Sqlx

theorem revertLoop_none_single (env : Env) (dry_run : Bool) (l : List Migration)
    (hsorted : l.Pairwise (fun a b => b.version ≤ a.version)) :
    ((revertLoop env dry_run none l).1.countP isRevertEvent ≤ 1) ∧
    (∀ v, Event.revert v ∈ (revertLoop env dry_run none l).1 →
      (∃ m ∈ l, m.migration_type.is_down_migration = true ∧
        (lookupApplied env.applied m.version).isSome = true ∧ m.version = v) ∧
      (∀ m ∈ l, m.migration_type.is_down_migration = true →
        (lookupApplied env.applied m.version).isSome = true → m.version ≤ v)) := by
  induction l with
  | nil =>
    constructor
    · simp [revertLoop]
    · intro v hv
      simp [revertLoop] at hv
  | cons m rest ih =>
    rcases List.pairwise_cons.mp hsorted with ⟨hle, hrest⟩
    have ihh := ih hrest
    rw [revertLoop.eq_def]
    dsimp only []
    by_cases hdown : m.migration_type.is_down_migration = true
    · rw [if_neg (by simp [hdown])]
      by_cases ha : (lookupApplied env.applied m.version).isSome = true
      · rw [if_pos ha]
        by_cases hds : (dry_run || revertSkip none m.version) = true
        · rw [if_pos hds]
          constructor
          · simp [isRevertEvent]
          · intro v hv
            simp at hv
        · rw [if_neg hds]
          cases hr : env.revertResult m.version with
          | error e =>
            constructor
            · simp [isRevertEvent]
            · intro v hv
              simp at hv
              subst hv
              refine ⟨⟨m, List.mem_cons_self m rest, hdown, ha, rfl⟩, ?_⟩
              intro m3 hm3 hd3 ha3
              rcases List.mem_cons.mp hm3 with rfl | hm3r
              · exact le_refl _
              · exact hle m3 hm3r
          | ok d =>
            constructor
            · simp [isRevertEvent]
            · intro v hv
              simp at hv
              subst hv
              refine ⟨⟨m, List.mem_cons_self m rest, hdown, ha, rfl⟩, ?_⟩
              intro m3 hm3 hd3 ha3
              rcases List.mem_cons.mp hm3 with rfl | hm3r
              · exact le_refl _
              · exact hle m3 hm3r
      · rw [if_neg ha]
        refine ⟨ihh.1, ?_⟩
        intro v hv
        rcases ihh.2 v hv with ⟨⟨m2, hm2, hd2, ha2, hv2⟩, hall⟩
        refine ⟨⟨m2, List.mem_cons_of_mem _ hm2, hd2, ha2, hv2⟩, ?_⟩
        intro m3 hm3 hd3 ha3
        rcases List.mem_cons.mp hm3 with rfl | hm3r
        · exact absurd ha3 (by simpa using ha)
        · exact hall m3 hm3r hd3 ha3
    · rw [if_pos (by simp [hdown])]
      refine ⟨ihh.1, ?_⟩
      intro v hv
      rcases ihh.2 v hv with ⟨⟨m2, hm2, hd2, ha2, hv2⟩, hall⟩
      refine ⟨⟨m2, List.mem_cons_of_mem _ hm2, hd2, ha2, hv2⟩, ?_⟩
      intro m3 hm3 hd3 ha3
      rcases List.mem_cons.mp hm3 with rfl | hm3r
      · exact absurd hd3 (by simpa using hdown)
      · exact hall m3 hm3r hd3 ha3

theorem revert_countP_le (catalog : List Migration) (env : Env) (dry_run ignore_missing : Bool)
    (target_version : Option Int) :
    (revert catalog env dry_run ignore_missing target_version).1.countP isRevertEvent ≤
      (revertLoop env dry_run target_version catalog.reverse).1.countP isRevertEvent := by
  have hbody : ∀ tv : Option Int,
      (([Event.ensureTable, Event.readDirty, Event.listApplied] ++
        (revertLoop env dry_run tv catalog.reverse).1 ++
        (match (revertLoop env dry_run tv catalog.reverse).2 with
          | .ok _ => [Event.close] | .error _ => [])).countP isRevertEvent)
      = (revertLoop env dry_run tv catalog.reverse).1.countP isRevertEvent := by
    intro tv
    rw [List.countP_append, List.countP_append]
    have h2 : (match (revertLoop env dry_run tv catalog.reverse).2 with
        | .ok _ => [Event.close] | .error _ => []).countP isRevertEvent = 0 := by
      cases (revertLoop env dry_run tv catalog.reverse).2 <;> rfl
    rw [h2]
    simp [isRevertEvent]
  have hconn : ∀ tv : Option Int,
      (revertConn catalog env dry_run ignore_missing tv).1.countP isRevertEvent ≤
      (revertLoop env dry_run tv catalog.reverse).1.countP isRevertEvent := by
    intro tv
    unfold revertConn
    cases hd : env.dirty with
    | some v => simp [isRevertEvent]
    | none =>
      cases hv : validate_applied_migrations env.applied catalog ignore_missing with
      | error e => simp [isRevertEvent]
      | ok u =>
        cases tv with
        | none =>
          rw [if_neg (by simp)]
          exact le_of_eq (hbody none)
        | some t =>
          by_cases hto : decide (latestVersion env.applied < t) = true
          · rw [if_pos (by simpa using hto)]
            simp [isRevertEvent]
          · rw [if_neg (by simpa using hto)]
            exact le_of_eq (hbody (some t))
  cases target_version with
  | none =>
    unfold revert
    exact hconn none
  | some t =>
    unfold revert
    dsimp only []
    by_cases he : (t != 0 && !version_exists catalog t) = true
    · rw [if_pos he]
      simp
    · rw [if_neg he]
      exact hconn (some t)

/-- C5: `revert` with no target invokes the external revert primitive at
most once, and only on a down-kind catalog record whose version is applied
and is maximal among all applied down-kind records. -/
theorem revert_no_target_at_most_one (catalog : List Migration) (env : Env)
    (dry_run ignore_missing : Bool)
    (hsorted : catalog.Pairwise (fun a b => a.version ≤ b.version)) :
    ((revert catalog env dry_run ignore_missing none).1.countP isRevertEvent ≤ 1) ∧
    (∀ v, Event.revert v ∈ (revert catalog env dry_run ignore_missing none).1 →
      (∃ m ∈ catalog, m.migration_type.is_down_migration = true ∧
        (lookupApplied env.applied m.version).isSome = true ∧ m.version = v) ∧
      (∀ m ∈ catalog, m.migration_type.is_down_migration = true →
        (lookupApplied env.applied m.version).isSome = true → m.version ≤ v)) := by
  have hrevp : catalog.reverse.Pairwise (fun a b => b.version ≤ a.version) := by
    rw [List.pairwise_reverse]
    exact hsorted
  have hloop := revertLoop_none_single env dry_run catalog.reverse hrevp
  constructor
  · exact le_trans (revert_countP_le catalog env dry_run ignore_missing none) hloop.1
  · intro v hv
    rcases revert_mem catalog env dry_run ignore_missing none _ hv with hm | hm
    · rcases hloop.2 v hm with ⟨⟨m2, hm2, h3, h4, h5⟩, hall⟩
      exact ⟨⟨m2, List.mem_reverse.mp hm2, h3, h4, h5⟩,
        fun m3 hm3 => hall m3 (List.mem_reverse.mpr hm3)⟩
    · simp at hm

def catC5 : List Migration :=
  [⟨1, "a", .ReversibleUp, [1]⟩, ⟨1, "a", .ReversibleDown, [1]⟩,
   ⟨2, "b", .ReversibleUp, [2]⟩, ⟨2, "b", .ReversibleDown, [2]⟩]

def envC5 : Env := ⟨none, [⟨1, [1]⟩, ⟨2, [2]⟩], fun _ => .ok 7, fun _ => .ok 7⟩

/-- C5 witness: with two applied down-migrations, a no-target revert calls
the revert primitive at most once, on the maximal applied version. -/
theorem revert_no_target_at_most_one_witness :
    (catC5.Pairwise (fun a b => a.version ≤ b.version)) ∧
    ((revert catC5 envC5 false false none).1.countP isRevertEvent ≤ 1) ∧
    (∀ v, Event.revert v ∈ (revert catC5 envC5 false false none).1 →
      (∃ m ∈ catC5, m.migration_type.is_down_migration = true ∧
        (lookupApplied envC5.applied m.version).isSome = true ∧ m.version = v) ∧
      (∀ m ∈ catC5, m.migration_type.is_down_migration = true →
        (lookupApplied envC5.applied m.version).isSome = true → m.version ≤ v)) :=
  ⟨by decide, (revert_no_target_at_most_one catC5 envC5 false false (by decide)).1,
    (revert_no_target_at_most_one catC5 envC5 false false (by decide)).2⟩

end Sqlx

namespace Sqlx

theorem run_guards_pass (catalog : List Migration) (env : Env) (dry_run ignore_missing : Bool)
    (target_version : Option Int)
    (hd : env.dirty = none)
    (hval : validate_applied_migrations env.applied catalog ignore_missing = .ok ())
    (h1 : targetOkRun catalog target_version = true)
    (hto : ∀ t, target_version = some t → latestVersion env.applied ≤ t) :
    run catalog env dry_run ignore_missing target_version
      = ([Event.ensureTable, Event.readDirty, Event.listApplied] ++
          (runLoop env dry_run target_version catalog).1 ++
          (match (runLoop env dry_run target_version catalog).2 with
            | .ok _ => [Event.close] | .error _ => []),
        (runLoop env dry_run target_version catalog).2) := by
  cases target_version with
  | none =>
    unfold run runConn
    rw [hd, hval]
    rw [if_neg (by simp)]
  | some t =>
    unfold run
    dsimp only []
    rw [if_pos (by simpa [targetOkRun] using h1)]
    unfold runConn
    rw [hd, hval]
    rw [if_neg (by simpa using not_lt.mpr (hto t rfl))]

theorem runLoop_dry_reports (env : Env) (target_version : Option Int) (l : List Migration)
    (hok : (runLoop env true target_version l).2 = .ok ())
    (m : Migration) (hm : m ∈ l) (hup : m.migration_type.is_up_migration = true)
    (hun : lookupApplied env.applied m.version = none)
    (hskip : runSkip target_version m.version = false) :
    Event.report "Can apply" m.version 0 ∈ (runLoop env true target_version l).1 := by
  induction l with
  | nil => simp at hm
  | cons h0 rest ih =>
    rw [runLoop] at hok ⊢
    by_cases hdown : h0.migration_type.is_down_migration = true
    · rw [if_pos hdown] at hok ⊢
      rcases List.mem_cons.mp hm with rfl | hmr
      · rw [MigrationType.is_up_migration, hdown] at hup
        simp at hup
      · exact ih hok hmr
    · rw [if_neg hdown] at hok ⊢
      cases hl : lookupApplied env.applied h0.version with
      | some a =>
        simp only [hl] at hok ⊢
        by_cases hc : (h0.checksum == a.checksum) = true
        · rw [if_pos hc] at hok ⊢
          rcases List.mem_cons.mp hm with rfl | hmr
          · rw [hl] at hun
            simp at hun
          · exact ih hok hmr
        · rw [if_neg hc] at hok
          simp at hok
      | none =>
        simp only [hl] at hok ⊢
        rw [if_pos (by simp)] at hok ⊢
        rcases List.mem_cons.mp hm with rfl | hmr
        · exact List.mem_cons.mpr (Or.inl (by rw [hskip]; rfl))
        · exact List.mem_cons_of_mem _ (ih hok hmr)

end Sqlx

namespace Sqlx

def mig7a : Migration := ⟨1, "a", .Simple, [1]⟩
def mig7b : Migration := ⟨2, "b", .Simple, [2]⟩
def env7 : Env := ⟨none, [⟨1, [9]⟩], fun _ => .ok 3, fun _ => .ok 3⟩

/-- C7 counterexample: with version 1 applied under a changed checksum, a
dry run aborts with `VersionMismatch 1` and emits no report line at all,
although up-kind migration 2 is unapplied and within range — refuting the
claim that a dry run always reports `Can apply` for every such migration. -/
theorem dry_run_report_counterexample :
    mig7b ∈ [mig7a, mig7b] ∧
    mig7b.migration_type.is_up_migration = true ∧
    lookupApplied env7.applied mig7b.version = none ∧
    (run [mig7a, mig7b] env7 true false none).1.all (fun e => !isReportEvent e) = true ∧
    (run [mig7a, mig7b] env7 true false none).2
      = .error (.VersionMismatch 1) :=
  ⟨by decide, by decide, by decide, by decide, rfl⟩

theorem run_ok_structure (catalog : List Migration) (env : Env) (dry_run ignore_missing : Bool)
    (target_version : Option Int)
    (hok : (run catalog env dry_run ignore_missing target_version).2 = .ok ()) :
    (runLoop env dry_run target_version catalog).2 = .ok () ∧
    (run catalog env dry_run ignore_missing target_version).1
      = [Event.ensureTable, Event.readDirty, Event.listApplied] ++
        (runLoop env dry_run target_version catalog).1 ++ [Event.close] := by
  have hconn : ∀ tv : Option Int,
      (runConn catalog env dry_run ignore_missing tv).2 = .ok () →
      (runLoop env dry_run tv catalog).2 = .ok () ∧
      (runConn catalog env dry_run ignore_missing tv).1
        = [Event.ensureTable, Event.readDirty, Event.listApplied] ++
          (runLoop env dry_run tv catalog).1 ++ [Event.close] := by
    intro tv hc
    unfold runConn at hc ⊢
    cases hd : env.dirty with
    | some v => simp only [hd] at hc; simp at hc
    | none =>
      simp only [hd] at hc ⊢
      cases hv : validate_applied_migrations env.applied catalog ignore_missing with
      | error e => simp only [hv] at hc; simp at hc
      | ok u =>
        simp only [hv] at hc ⊢
        cases tv with
        | none =>
          rw [if_neg (by simp)] at hc ⊢
          refine ⟨hc, ?_⟩
          rw [hc]
        | some t =>
          by_cases hto : decide (t < latestVersion env.applied) = true
          · rw [if_pos (by simpa using hto)] at hc
            simp at hc
          · rw [if_neg (by simpa using hto)] at hc ⊢
            refine ⟨hc, ?_⟩
            rw [hc]
  cases target_version with
  | none =>
    unfold run at hok ⊢
    exact hconn none hok
  | some t =>
    unfold run at hok ⊢
    dsimp only [] at hok ⊢
    by_cases he : version_exists catalog t = true
    · rw [if_pos he] at hok ⊢
      exact hconn (some t) hok
    · rw [if_neg he] at hok
      simp at hok

/-- C7 (amended): a dry run never invokes the external apply primitive on
any path; and when the dry run completes without an early failure (dirty
marker, missing version, checksum mismatch, bad target), it reports
`Can apply` with zero elapsed time for every up-kind migration that is not
yet applied and does not exceed the target. -/
theorem dry_run_no_apply_and_reports (catalog : List Migration) (env : Env)
    (ignore_missing : Bool) (target_version : Option Int) :
    (∀ v, Event.apply v ∉ (run catalog env true ignore_missing target_version).1) ∧
    ((run catalog env true ignore_missing target_version).2 = .ok () →
      ∀ m ∈ catalog, m.migration_type.is_up_migration = true →
        lookupApplied env.applied m.version = none →
        (∀ t, target_version = some t → m.version ≤ t) →
        Event.report "Can apply" m.version 0
          ∈ (run catalog env true ignore_missing target_version).1) := by
  constructor
  · intro v hv
    rcases run_mem catalog env true ignore_missing target_version _ hv with hm | hm
    · rcases runLoop_mem_shape env true target_version catalog _ hm with
        ⟨w, hw, -, hdry⟩ | ⟨t2, v2, e2, hev, -⟩
      · simp at hdry
      · simp at hev
    · simp at hm
  · intro hok m hm hup hun htv
    have hs := run_ok_structure catalog env true ignore_missing target_version hok
    have hskip : runSkip target_version m.version = false := by
      cases target_version with
      | none => rfl
      | some t =>
        simp only [runSkip, decide_eq_false_iff_not]
        exact not_lt.mpr (htv t rfl)
    have hrep := runLoop_dry_reports env target_version catalog hs.1 m hm hup hun hskip
    rw [hs.2]
    simp only [List.append_assoc, List.mem_append]
    exact Or.inr (Or.inl hrep)

/-- C7 witness: a clean dry run over one unapplied migration calls no apply
primitive and reports `Can apply` in zero time. -/
theorem dry_run_no_apply_and_reports_witness :
    (Event.apply 1 ∉ (run [mig1] env1 true false none).1) ∧
    ((run [mig1] env1 true false none).2 = .ok ()) ∧
    Event.report "Can apply" 1 0 ∈ (run [mig1] env1 true false none).1 :=
  ⟨(dry_run_no_apply_and_reports [mig1] env1 false none).1 1, rfl,
    (dry_run_no_apply_and_reports [mig1] env1 false none).2 rfl mig1 (by decide)
      (by decide) (by decide) (fun t ht => by cases ht)⟩

end Sqlx

namespace Sqlx

theorem runLoop_first_mismatch (env : Env) (dry_run : Bool) (target_version : Option Int)
    (l : List Migration) (m : Migration)
    (hsorted : l.Pairwise (fun a b => a.version ≤ b.version))
    (happly : ∀ v, ∃ d, env.applyResult v = .ok d)
    (hfind : l.find? (isMismatched env.applied) = some m) :
    (runLoop env dry_run target_version l).2 = .error (.VersionMismatch m.version) ∧
    (∀ v, Event.apply v ∈ (runLoop env dry_run target_version l).1 → v ≤ m.version) := by
  induction l with
  | nil => simp at hfind
  | cons h0 rest ih =>
    rcases List.pairwise_cons.mp hsorted with ⟨hle, hrest⟩
    by_cases hmm : isMismatched env.applied h0 = true
    · rw [List.find?_cons_of_pos _ hmm] at hfind
      have hm0 : h0 = m := by injection hfind
      subst hm0
      simp only [isMismatched, Bool.and_eq_true] at hmm
      obtain ⟨hup, hrest2⟩ := hmm
      have hdown : h0.migration_type.is_down_migration = false := by
        rw [MigrationType.is_up_migration] at hup
        simpa using hup
      cases hl : lookupApplied env.applied h0.version with
      | none => rw [hl] at hrest2; simp at hrest2
      | some a =>
        rw [hl] at hrest2
        rw [runLoop]
        rw [if_neg (by simp [hdown])]
        simp only [hl]
        rw [if_neg (by simpa using hrest2)]
        exact ⟨rfl, by intro v hv; simp at hv⟩
    · rw [List.find?_cons_of_neg _ hmm] at hfind
      have hmem : m ∈ rest := List.mem_of_find?_eq_some hfind
      have hlever : h0.version ≤ m.version := hle m hmem
      have ihh := ih hrest hfind
      rw [runLoop]
      by_cases hdown : h0.migration_type.is_down_migration = true
      · rw [if_pos hdown]
        exact ihh
      · rw [if_neg hdown]
        have hup : h0.migration_type.is_up_migration = true := by
          rw [MigrationType.is_up_migration]
          simpa using hdown
        cases hl : lookupApplied env.applied h0.version with
        | some a =>
          simp only [hl]
          cases hceqb : (h0.checksum == a.checksum) with
          | true =>
            rw [if_pos rfl]
            exact ihh
          | false =>
            exfalso
            apply hmm
            simp only [isMismatched, hl]
            simp [hup, hceqb]
        | none =>
          simp only [hl]
          by_cases hds : (dry_run || runSkip target_version h0.version) = true
          · rw [if_pos hds]
            refine ⟨ihh.1, ?_⟩
            intro v hv
            rcases List.mem_cons.mp hv with heq | hv2
            · simp at heq
            · exact ihh.2 v hv2
          · rw [if_neg hds]
            rcases happly h0.version with ⟨d, hda⟩
            simp only [hda]
            refine ⟨ihh.1, ?_⟩
            intro v hv
            rcases List.mem_cons.mp hv with heq | hv2
            · have hveq : v = h0.version := by simpa using heq
              rw [hveq]
              exact hlever
            · rcases List.mem_cons.mp hv2 with heq2 | hv3
              · simp at heq2
              · exact ihh.2 v hv3

theorem info_mismatch_line (catalog : List Migration) (env : Env) (m : Migration)
    (a : AppliedMigration)
    (hm : m ∈ catalog) (hup : m.migration_type.is_up_migration = true)
    (hl : lookupApplied env.applied m.version = some a)
    (hne : (m.checksum == a.checksum) = false) :
    InfoLine.mk m.version "installed (different checksum)"
        (some (short_checksum a.checksum, short_checksum m.checksum)) ∈ (info catalog env).1 := by
  have hne2 : (a.checksum == m.checksum) = false := by
    simp only [beq_eq_false_iff_ne] at hne ⊢
    exact fun h => hne h.symm
  have hval2 : infoLine env.applied m = InfoLine.mk m.version "installed (different checksum)"
      (some (short_checksum a.checksum, short_checksum m.checksum)) := by
    simp only [infoLine, hl]
    rw [if_neg (by simp [hne2])]
  rw [← hval2]
  unfold info
  dsimp only []
  refine List.mem_map.mpr ⟨m, List.mem_filter.mpr ⟨hm, ?_⟩, rfl⟩
  rw [MigrationType.is_up_migration] at hup
  exact hup

/-- C3: with an up-kind record `m` being the first catalog record applied
under a changed checksum (and the earlier guards passing), `run` without
`ignore_missing` fails with `VersionMismatch m.version`, no migration with
a higher version is ever applied, and `info` on the same state reports the
version as `installed (different checksum)` with both abbreviated
checksums while returning success. -/
theorem checksum_mismatch_behavior (catalog : List Migration) (env : Env)
    (dry_run : Bool) (target_version : Option Int) (m : Migration)
    (hsorted : catalog.Pairwise (fun a b => a.version ≤ b.version))
    (happly : ∀ v, ∃ d, env.applyResult v = .ok d)
    (hd : env.dirty = none)
    (hval : validate_applied_migrations env.applied catalog false = .ok ())
    (h1 : targetOkRun catalog target_version = true)
    (hto : ∀ t, target_version = some t → latestVersion env.applied ≤ t)
    (hfind : catalog.find? (isMismatched env.applied) = some m) :
    (run catalog env dry_run false target_version).2 = .error (.VersionMismatch m.version) ∧
    (∀ v, Event.apply v ∈ (run catalog env dry_run false target_version).1 → v ≤ m.version) ∧
    ((info catalog env).2 = .ok ()) ∧
    (∃ a, lookupApplied env.applied m.version = some a ∧ (m.checksum == a.checksum) = false ∧
      InfoLine.mk m.version "installed (different checksum)"
        (some (short_checksum a.checksum, short_checksum m.checksum)) ∈ (info catalog env).1) := by
  have hrun := run_guards_pass catalog env dry_run false target_version hd hval h1 hto
  have hloop := runLoop_first_mismatch env dry_run target_version catalog m hsorted happly hfind
  have hmm := List.find?_some hfind
  have hmem := List.mem_of_find?_eq_some hfind
  simp only [isMismatched, Bool.and_eq_true] at hmm
  obtain ⟨hup, hrest2⟩ := hmm
  refine ⟨?_, ?_, rfl, ?_⟩
  · rw [hrun]
    exact hloop.1
  · intro v hv
    rw [hrun] at hv
    rw [hloop.1] at hv
    simp only [List.append_assoc, List.mem_append] at hv
    rcases hv with hv | hv | hv
    · simp at hv
    · exact hloop.2 v hv
    · simp at hv
  · cases hl : lookupApplied env.applied m.version with
    | none => rw [hl] at hrest2; simp at hrest2
    | some a =>
      rw [hl] at hrest2
      have hne : (m.checksum == a.checksum) = false := by simpa using hrest2
      exact ⟨a, rfl, hne, info_mismatch_line catalog env m a hmem hup hl hne⟩

/-- C3 witness: version 1 applied with checksum 9 against catalog checksum
1; the run fails at version 1 and info reports the mismatch. -/
theorem checksum_mismatch_behavior_witness :
    ([mig7a, mig7b].Pairwise (fun a b => a.version ≤ b.version)) ∧
    ([mig7a, mig7b].find? (isMismatched env7.applied) = some mig7a) ∧
    ((run [mig7a, mig7b] env7 false false none).2 = .error (.VersionMismatch mig7a.version) ∧
      (∀ v, Event.apply v ∈ (run [mig7a, mig7b] env7 false false none).1 → v ≤ mig7a.version) ∧
      ((info [mig7a, mig7b] env7).2 = .ok ()) ∧
      (∃ a, lookupApplied env7.applied mig7a.version = some a ∧
        (mig7a.checksum == a.checksum) = false ∧
        InfoLine.mk mig7a.version "installed (different checksum)"
          (some (short_checksum a.checksum, short_checksum mig7a.checksum))
          ∈ (info [mig7a, mig7b] env7).1)) :=
  ⟨by decide, by decide,
    checksum_mismatch_behavior [mig7a, mig7b] env7 false none mig7a (by decide)
      (fun v => ⟨3, rfl⟩) rfl rfl rfl (fun t ht => by cases ht) (by decide)⟩

end Sqlx

namespace Sqlx

/-- C4: with neither flag set, ordering inference yields a sequential
token (with value last+1) exactly when the last two up-kind records differ
by exactly one, or there is a single up-kind record with version 0 or 1;
every other catalog (including an empty one) yields a timestamp token. -/
theorem auto_ordering_inference (catalog : List Migration) (now : String)
    (hsorted : catalog.Pairwise (fun a b => a.version ≤ b.version)) :
    MigrationOrdering.infer false false now catalog = some (
      match (catalog.filter (fun m => m.migration_type.is_up_migration)).reverse with
      | lst :: pre_lst :: _ =>
        if (lst.version - pre_lst.version).natAbs = 1 then
          .sequential (lst.version + 1)
        else .timestamp now
      | [lst] =>
        if lst.version = 0 ∨ lst.version = 1 then .sequential (lst.version + 1)
        else .timestamp now
      | [] => .timestamp now) := by
  have hups : (catalog.filter (fun m => m.migration_type.is_up_migration)).Pairwise
      (fun a b => a.version ≤ b.version) := List.Pairwise.filter _ hsorted
  cases hrev : (catalog.filter (fun m => m.migration_type.is_up_migration)).reverse with
  | nil =>
    simp only [MigrationOrdering.infer, hrev]
    rfl
  | cons a t =>
    cases t with
    | nil =>
      simp only [MigrationOrdering.infer, hrev]
      rfl
    | cons b t2 =>
      have hba : b.version ≤ a.version := by
        have hrp : ((catalog.filter
            (fun m => m.migration_type.is_up_migration)).reverse).Pairwise
            (fun x y => y.version ≤ x.version) := by
          rw [List.pairwise_reverse]
          exact hups
        rw [hrev] at hrp
        exact (List.pairwise_cons.mp hrp).1 b (List.mem_cons_self b t2)
      have hiff : ((a.version - b.version).natAbs = 1) ↔ (a.version - b.version = 1) := by
        omega
      simp only [MigrationOrdering.infer, hrev, List.take_succ_cons, List.take_zero]
      by_cases hdiff : a.version - b.version = 1
      · rw [if_pos hdiff, if_pos (hiff.mpr hdiff)]
      · rw [if_neg hdiff, if_neg (fun hc => hdiff (hiff.mp hc))]

def mig4a : Migration := ⟨1, "a", .Simple, [1]⟩
def mig4b : Migration := ⟨2, "b", .Simple, [2]⟩

/-- C4 witness: two contiguous up-migrations infer the next sequential
version. -/
theorem auto_ordering_inference_witness :
    ([mig4a, mig4b].Pairwise (fun a b => a.version ≤ b.version)) ∧
    MigrationOrdering.infer false false "20240101000000" [mig4a, mig4b]
      = some (.Sequential "0003") :=
  ⟨by decide,
    (auto_ordering_inference [mig4a, mig4b] "20240101000000" (by decide)).trans (by decide)⟩

theorem fmt04_nonneg (v : Int) (h : 0 ≤ v) : fmt04 v = padTo4 (Nat.repr v.toNat) := by
  have habs : v.natAbs = v.toNat := by omega
  simp only [fmt04, padTo4, habs]
  rw [if_neg (by omega)]
  have hlen : ("" : String).length = 0 := rfl
  rw [hlen]
  simp only [Nat.zero_add]
  have hemp : ∀ s : String, "" ++ s = s := by
    intro s
    cases s
    rfl
  rw [hemp]

/-- C8: with the sequential flag explicitly set, inference produces a
sequential token whose value is the last catalog record's version plus
one — or 1 on an empty catalog — rendered as its decimal digits
zero-padded to at least four characters. -/
theorem sequential_explicit_version (catalog : List Migration) (now : String) :
    (catalog = [] →
      MigrationOrdering.infer true false now catalog = some (.Sequential "0001")) ∧
    (∀ m, catalog.getLast? = some m → 0 ≤ m.version →
      MigrationOrdering.infer true false now catalog
        = some (.Sequential (padTo4 (Nat.repr (m.version + 1).toNat)))) := by
  constructor
  · intro hempty
    subst hempty
    rfl
  · intro m hlast hpos
    simp only [MigrationOrdering.infer, hlast]
    rw [MigrationOrdering.sequential, fmt04_nonneg (m.version + 1) (by omega)]

def mig8 : Migration := ⟨7, "seven", .Simple, [1]⟩

/-- C8 witness: a catalog ending at version 7 yields the token "0008". -/
theorem sequential_explicit_version_witness :
    ([mig8].getLast? = some mig8) ∧ (0 ≤ mig8.version) ∧
    MigrationOrdering.infer true false "x" [mig8] = some (.Sequential "0008") :=
  ⟨rfl, by decide,
    ((sequential_explicit_version [mig8] "x").2 mig8 rfl (by decide)).trans (by decide)⟩

end Sqlx
